import Mathlib

/-
Verification development for the reference-merger program (referenceManager.py).
The program is shallowly embedded: Python strings are modelled as lists of
characters (List Char), Python dictionaries holding one bibliographic record are
modelled as structures with one field per canonical key, and each Python
function of the core pipeline becomes a computable Lean function.  Unicode data
consulted by the source through the unicodedata module (lower-casing, NFD
decomposition, combining-mark classification, word-character classes) is
modelled by explicit tables covering ASCII and the Latin-1 letters that appear
in this development; on that repertoire the tables agree with the Python
runtime.
-/

namespace RefMan

/-- Whitespace test for the characters recognised by Python str.strip and by the
regex whitespace class, over the ASCII repertoire: space, tab, newline,
carriage return, vertical tab, form feed. -/
def pyIsSpace (c : Char) : Bool :=
  c = ' ' || c = '\t' || c = '\n' || c = '\r' || c.toNat = 11 || c.toNat = 12

/-- Drop leading whitespace, as Python str.lstrip does. -/
def lstrip (s : List Char) : List Char := s.dropWhile pyIsSpace

/-- Drop trailing whitespace, as Python str.rstrip does. -/
def rstrip (s : List Char) : List Char := (s.reverse.dropWhile pyIsSpace).reverse

/-- Model of Python str.strip: remove leading and trailing whitespace. -/
def pyStrip (s : List Char) : List Char := rstrip (lstrip s)

/-- Lower-casing of one character, modelling Python str.lower over ASCII plus
the precomposed Latin-1 letters used in this development. -/
def pyLowerChar (c : Char) : Char :=
  if 'A' ≤ c ∧ c ≤ 'Z' then Char.ofNat (c.toNat + 32)
  else if c = 'À' then 'à' else if c = 'Á' then 'á' else if c = 'Â' then 'â'
  else if c = 'Ã' then 'ã' else if c = 'Ä' then 'ä' else if c = 'Å' then 'å'
  else if c = 'Ç' then 'ç' else if c = 'È' then 'è' else if c = 'É' then 'é'
  else if c = 'Ê' then 'ê' else if c = 'Ë' then 'ë' else if c = 'Ì' then 'ì'
  else if c = 'Í' then 'í' else if c = 'Î' then 'î' else if c = 'Ï' then 'ï'
  else if c = 'Ñ' then 'ñ' else if c = 'Ò' then 'ò' else if c = 'Ó' then 'ó'
  else if c = 'Ô' then 'ô' else if c = 'Õ' then 'õ' else if c = 'Ö' then 'ö'
  else if c = 'Ù' then 'ù' else if c = 'Ú' then 'ú' else if c = 'Û' then 'û'
  else if c = 'Ü' then 'ü' else if c = 'Ý' then 'ý' else c

/-- Model of Python str.lower on a whole string. -/
def pyLower (s : List Char) : List Char := s.map pyLowerChar

/-- The fixed list of URL and scheme markers removed from the front of a DOI by
normalize_doi, in the order the source tries them. -/
def doiPrefixes : List (List Char) :=
  [("https://dx.doi.org/").data, ("https://doi.org/").data, ("http://doi.org/").data,
   ("http://dx.doi.org/").data, ("doi:").data, ("doi.org/").data]

/-- One iteration of the prefix-stripping loop in normalize_doi: when the
lowered string starts with the lowered marker, that many characters are
dropped, otherwise the string is returned unchanged. -/
def stripDoiStep (s p : List Char) : List Char :=
  if (pyLower p).isPrefixOf (pyLower s) then s.drop p.length else s

/-- The whole prefix loop of normalize_doi: every marker of doiPrefixes is
tried exactly once, in order. -/
def stripDoiLoop (s : List Char) : List Char := doiPrefixes.foldl stripDoiStep s

/-- Model of normalize_doi: an empty (falsy) input yields the empty string;
otherwise the input is trimmed, each known prefix is stripped once with a
case-insensitive comparison, and the result is trimmed again. -/
def normalize_doi (doi : List Char) : List Char :=
  if doi = [] then [] else pyStrip (stripDoiLoop (pyStrip doi))

-- Helper lemmas about dropWhile and the strip functions.

theorem dropWhile_self_idem (p : Char → Bool) (l : List Char) :
    (l.dropWhile p).dropWhile p = l.dropWhile p := by
  induction l with
  | nil => rfl
  | cons c t ih =>
    by_cases h : p c
    · simp [List.dropWhile_cons, h, ih]
    · simp [List.dropWhile_cons, h]

theorem length_dropWhile_le (p : Char → Bool) (l : List Char) :
    (l.dropWhile p).length ≤ l.length := by
  induction l with
  | nil => simp
  | cons c t ih =>
    by_cases h : p c
    · simp only [List.dropWhile_cons, h, if_true]
      exact Nat.le_trans ih (Nat.le_succ _)
    · simp [List.dropWhile_cons, h]

theorem rstrip_idem (l : List Char) : rstrip (rstrip l) = rstrip l := by
  unfold rstrip
  rw [List.reverse_reverse, dropWhile_self_idem]

theorem lstrip_head_false {c : Char} {t : List Char}
    (h : lstrip (c :: t) = c :: t) : pyIsSpace c = false := by
  by_contra hc
  have hc' : pyIsSpace c = true := by
    cases hb : pyIsSpace c
    · exact absurd hb hc
    · rfl
  unfold lstrip at h
  rw [List.dropWhile_cons, hc'] at h
  simp only [if_true] at h
  have hle := length_dropWhile_le pyIsSpace t
  rw [h] at hle
  rw [List.length_cons] at hle
  omega

theorem rstrip_prefix_self (l : List Char) : rstrip l <+: l := by
  have h := List.reverse_prefix.mpr (List.dropWhile_suffix (l := l.reverse) pyIsSpace)
  rwa [List.reverse_reverse] at h

theorem lstrip_rstrip_of_lstrip_eq {l : List Char} (h : lstrip l = l) :
    lstrip (rstrip l) = rstrip l := by
  obtain ⟨u, hu⟩ := rstrip_prefix_self l
  cases hr : rstrip l with
  | nil => rfl
  | cons c t =>
    rw [hr] at hu
    have hc : pyIsSpace c = false := by
      cases l with
      | nil => simp at hu
      | cons d t' =>
        have h2 : c :: (t ++ u) = d :: t' := by simpa using hu
        have hcd : c = d := (List.cons_eq_cons.mp h2).1
        rw [hcd]
        exact lstrip_head_false h
    unfold lstrip
    rw [List.dropWhile_cons, hc]
    rfl

theorem pyStrip_idem (s : List Char) : pyStrip (pyStrip s) = pyStrip s := by
  unfold pyStrip
  have h1 : lstrip (lstrip s) = lstrip s := dropWhile_self_idem pyIsSpace s
  rw [lstrip_rstrip_of_lstrip_eq h1, rstrip_idem]

theorem stripDoiStep_of_no_match {s p : List Char}
    (h : (pyLower p).isPrefixOf (pyLower s) = false) : stripDoiStep s p = s := by
  unfold stripDoiStep
  rw [h]
  rfl

theorem stripDoiLoop_eq_self {s : List Char}
    (h : ∀ p ∈ doiPrefixes, (pyLower p).isPrefixOf (pyLower s) = false) :
    stripDoiLoop s = s := by
  have h1 := h _ (show ("https://dx.doi.org/").data ∈ doiPrefixes by simp [doiPrefixes])
  have h2 := h _ (show ("https://doi.org/").data ∈ doiPrefixes by simp [doiPrefixes])
  have h3 := h _ (show ("http://doi.org/").data ∈ doiPrefixes by simp [doiPrefixes])
  have h4 := h _ (show ("http://dx.doi.org/").data ∈ doiPrefixes by simp [doiPrefixes])
  have h5 := h _ (show ("doi:").data ∈ doiPrefixes by simp [doiPrefixes])
  have h6 := h _ (show ("doi.org/").data ∈ doiPrefixes by simp [doiPrefixes])
  unfold stripDoiLoop doiPrefixes
  simp only [List.foldl]
  rw [stripDoiStep_of_no_match h1, stripDoiStep_of_no_match h2,
    stripDoiStep_of_no_match h3, stripDoiStep_of_no_match h4,
    stripDoiStep_of_no_match h5, stripDoiStep_of_no_match h6]

theorem pyStrip_normalize_doi (x : List Char) :
    pyStrip (normalize_doi x) = normalize_doi x := by
  by_cases hx : x = []
  · subst hx
    rfl
  · rw [normalize_doi, if_neg hx]
    exact pyStrip_idem _

/-- Claim C3 counterexample: normalize_doi is not idempotent.  On the input
doi:doi:10.1/x one application strips only the outer doi: marker (each prefix
is tried a single time, in a fixed order), while a second application strips
the inner one as well. -/
theorem normalize_doi_not_idem_cex :
    normalize_doi (normalize_doi (("doi:doi:10.1/x").data)) ≠
      normalize_doi (("doi:doi:10.1/x").data) := by decide

/-- Claim C3, amended: normalize_doi is idempotent on every input whose once
normalized form does not itself begin, case-insensitively, with one of the six
stripped markers.  In general a normalized output can still carry a marker
(nested prefixes), and a second application then strips further. -/
theorem normalize_doi_idem_of_no_marker (x : List Char)
    (h : ∀ p ∈ doiPrefixes,
      (pyLower p).isPrefixOf (pyLower (normalize_doi x)) = false) :
    normalize_doi (normalize_doi x) = normalize_doi x := by
  by_cases hy : normalize_doi x = []
  · rw [hy]
    rfl
  · conv_lhs => rw [normalize_doi, if_neg hy]
    rw [pyStrip_normalize_doi, stripDoiLoop_eq_self h, pyStrip_normalize_doi]

/-- Witness for the amended claim C3 at a concrete input. -/
theorem normalize_doi_idem_of_no_marker_witness :
    (∀ p ∈ doiPrefixes,
      (pyLower p).isPrefixOf
        (pyLower (normalize_doi (("  https://doi.org/10.123/AbC ").data))) = false) ∧
    normalize_doi (normalize_doi (("  https://doi.org/10.123/AbC ").data)) =
      normalize_doi (("  https://doi.org/10.123/AbC ").data) :=
  ⟨by decide, normalize_doi_idem_of_no_marker (("  https://doi.org/10.123/AbC ").data)
    (by decide)⟩

/-- Combining-mark test: true on the Unicode combining diacritical marks
block, which contains every category-Mn character produced by the
decompositions of nfdChar. -/
def isCombiningMark (c : Char) : Bool :=
  decide (0x300 ≤ c.toNat) && decide (c.toNat ≤ 0x36F)

/-- NFD decomposition per the Unicode tables, restricted to ASCII (identity)
and the precomposed lower-case Latin-1 letters used in this development. -/
def nfdChar (c : Char) : List Char :=
  if c = 'à' then ['a', Char.ofNat 0x300] else if c = 'á' then ['a', Char.ofNat 0x301]
  else if c = 'â' then ['a', Char.ofNat 0x302] else if c = 'ã' then ['a', Char.ofNat 0x303]
  else if c = 'ä' then ['a', Char.ofNat 0x308] else if c = 'å' then ['a', Char.ofNat 0x30A]
  else if c = 'ç' then ['c', Char.ofNat 0x327]
  else if c = 'è' then ['e', Char.ofNat 0x300] else if c = 'é' then ['e', Char.ofNat 0x301]
  else if c = 'ê' then ['e', Char.ofNat 0x302] else if c = 'ë' then ['e', Char.ofNat 0x308]
  else if c = 'ì' then ['i', Char.ofNat 0x300] else if c = 'í' then ['i', Char.ofNat 0x301]
  else if c = 'î' then ['i', Char.ofNat 0x302] else if c = 'ï' then ['i', Char.ofNat 0x308]
  else if c = 'ñ' then ['n', Char.ofNat 0x303]
  else if c = 'ò' then ['o', Char.ofNat 0x300] else if c = 'ó' then ['o', Char.ofNat 0x301]
  else if c = 'ô' then ['o', Char.ofNat 0x302] else if c = 'õ' then ['o', Char.ofNat 0x303]
  else if c = 'ö' then ['o', Char.ofNat 0x308]
  else if c = 'ù' then ['u', Char.ofNat 0x300] else if c = 'ú' then ['u', Char.ofNat 0x301]
  else if c = 'û' then ['u', Char.ofNat 0x302] else if c = 'ü' then ['u', Char.ofNat 0x308]
  else if c = 'ý' then ['y', Char.ofNat 0x301]
  else [c]

/-- Word-character test modelling the regex word class over ASCII
alphanumerics, the underscore, and the Latin-1 letter block. -/
def pyIsWordChar (c : Char) : Bool :=
  c.isAlphanum || c = '_' ||
    (decide (0xC0 ≤ c.toNat) && decide (c.toNat ≤ 0xFF)
      && c.toNat != 0xD7 && c.toNat != 0xF7)

/-- Collapsing pass over characters: the flag records whether the previous
character belonged to a whitespace run that has already emitted its single
space. -/
def collapseWsAux : Bool → List Char → List Char
  | _, [] => []
  | inRun, c :: rest =>
    if pyIsSpace c then
      if inRun then collapseWsAux true rest else ' ' :: collapseWsAux true rest
    else c :: collapseWsAux false rest

/-- Replace every maximal whitespace run by a single space, as the regex
substitution of one-or-more whitespace by a space does. -/
def collapseWs (s : List Char) : List Char := collapseWsAux false s

/-- Model of normalize_text: lower-case and trim, decompose (NFD) and drop the
combining marks, replace every character that is neither a word character nor
whitespace by a space, collapse whitespace runs to single spaces, and trim.
Empty (falsy) input yields the empty string. -/
def normalize_text (text : List Char) : List Char :=
  if text = [] then []
  else
    let t1 := pyStrip (pyLower text)
    let t2 := (t1.map nfdChar).flatten
    let t3 := t2.filter (fun c => !(isCombiningMark c))
    let t4 := t3.map (fun c => if !(pyIsWordChar c) && !(pyIsSpace c) then ' ' else c)
    pyStrip (collapseWs t4)

/-- Portion of a string before the first occurrence of the given separator;
models taking element zero of the corresponding Python split. -/
def beforeFirst (sep : Char) (s : List Char) : List Char :=
  s.takeWhile (fun c => c != sep)

/-- First-author key used by create_fingerprint: the authors value up to the
first semicolon, then up to the first comma, trimmed, lowered, and with every
non word character removed; empty when the authors value is empty. -/
def authorKey (authors : List Char) : List Char :=
  if authors = [] then []
  else (pyLower (pyStrip (beforeFirst ',' (beforeFirst ';' authors)))).filter pyIsWordChar

/-- Common record shape produced by the parsers and consumed by deduplication
and conversion: one field per canonical key, each holding a Python string
(empty for an absent value), plus the source-database tag that the caller
attaches to every record at ingestion. -/
structure RawRecord where
  title : List Char := []
  authors : List Char := []
  year : List Char := []
  doi : List Char := []
  abstract : List Char := []
  source : List Char := []
  volume : List Char := []
  issue : List Char := []
  page_start : List Char := []
  page_end : List Char := []
  pages : List Char := []
  issn : List Char := []
  publisher : List Char := []
  language : List Char := []
  keywords : List Char := []
  affiliations : List Char := []
  url : List Char := []
  pmid : List Char := []
  source_abbrev : List Char := []
  doc_type : List Char := []
  source_db : List Char := []
deriving DecidableEq

/-- Model of create_fingerprint: normalized title truncated to 50 characters,
first-author key, and the year value truncated to 4 characters, joined by
vertical bars. -/
def create_fingerprint (r : RawRecord) : List Char :=
  (normalize_text r.title).take 50 ++ ['|'] ++ authorKey r.authors ++ ['|'] ++ r.year.take 4

/-- The values of one record, as iterated by the completeness score. -/
def fieldValues (r : RawRecord) : List (List Char) :=
  [r.title, r.authors, r.year, r.doi, r.abstract, r.source, r.volume, r.issue,
   r.page_start, r.page_end, r.pages, r.issn, r.publisher, r.language, r.keywords,
   r.affiliations, r.url, r.pmid, r.source_abbrev, r.doc_type, r.source_db]

/-- Completeness score used by deduplicate_records: the number of values that
are non-empty and remain non-empty after trimming, plus bonuses for a truthy
DOI, PubMed identifier and abstract. -/
def score (r : RawRecord) : Nat :=
  (fieldValues r).countP (fun v => !v.isEmpty && !(pyStrip v).isEmpty)
    + (if r.doi ≠ [] then 10 else 0)
    + (if r.pmid ≠ [] then 5 else 0)
    + (if r.abstract ≠ [] then 5 else 0)

/-- Scoring pass of deduplicate_records: each record is paired with its score
and its original ingestion index. -/
def records_scored (records : List RawRecord) : List (Nat × Nat × RawRecord) :=
  records.enum.map (fun p => (score p.2, p.1, p.2))

/-- Strict comparison realising the Python sort call on the scored entries
with key (score, index) and the reverse flag set: entry a is ordered strictly
before entry b exactly when its key pair is lexicographically larger. -/
def keyBefore (a b : Nat × Nat × RawRecord) : Bool :=
  decide (b.1 < a.1 ∨ (a.1 = b.1 ∧ b.2.1 < a.2.1))

/-- Insertion into a list arranged by keyBefore. -/
def insertScored (x : Nat × Nat × RawRecord) :
    List (Nat × Nat × RawRecord) → List (Nat × Nat × RawRecord)
  | [] => [x]
  | y :: ys => if keyBefore x y then x :: y :: ys else y :: insertScored x ys

/-- Insertion sort by keyBefore.  The scored entries carry pairwise distinct
ingestion indices, so their key pairs are pairwise distinct and the strictly
descending arrangement produced here is the unique sorted order; it therefore
coincides with the stable reverse sort performed by the source. -/
def sortScored : List (Nat × Nat × RawRecord) → List (Nat × Nat × RawRecord)
  | [] => []
  | x :: xs => insertScored x (sortScored xs)

/-- The completeness-sorted scored entries walked by deduplicate_records. -/
def records_sorted (records : List RawRecord) : List (Nat × Nat × RawRecord) :=
  sortScored (records_scored records)

/-- State of the walk in deduplicate_records: survivors accumulated in walk
order, the two seen sets (modelled as lists and used through membership only),
the two duplicate counters, and the provenance list of (method, source label)
pairs. -/
structure DedupState where
  unique : List RawRecord
  seenDois : List (List Char)
  seenFps : List (List Char)
  dupDoi : Nat
  dupFp : Nat
  details : List (List Char × List Char)
deriving DecidableEq

/-- Initial state of the walk. -/
def initDedupState : DedupState := ⟨[], [], [], 0, 0, []⟩

/-- Fingerprint phase of one step of the walk, reached when the record was not
flagged as a DOI duplicate: a non-empty fingerprint longer than ten characters
is matched against the seen set; anything else keeps the record. -/
def dedupFpCheck (st : DedupState) (record : RawRecord) (fp : List Char) : DedupState :=
  if fp ≠ [] ∧ 10 < fp.length then
    if fp ∈ st.seenFps then
      { st with dupFp := st.dupFp + 1,
                details := st.details ++ [(("Fingerprint").data, record.source_db)] }
    else
      { st with seenFps := fp :: st.seenFps, unique := st.unique ++ [record] }
  else
    { st with unique := st.unique ++ [record] }

/-- One step of the walk of deduplicate_records over one record: the
normalized DOI is checked first, lowered, against the seen set; a record that
is not a DOI duplicate proceeds to the fingerprint phase (its DOI, when
non-empty and fresh, having been registered already). -/
def dedupStep (st : DedupState) (record : RawRecord) : DedupState :=
  let doi := normalize_doi record.doi
  if doi ≠ [] then
    if pyLower doi ∈ st.seenDois then
      { st with dupDoi := st.dupDoi + 1,
                details := st.details ++ [(("DOI").data, record.source_db)] }
    else
      dedupFpCheck { st with seenDois := pyLower doi :: st.seenDois } record
        (create_fingerprint record)
  else
    dedupFpCheck st record (create_fingerprint record)

/-- Model of deduplicate_records: score and sort, then walk the sorted
records; returns the surviving records in walk order, the DOI- and
fingerprint-duplicate counts, and the provenance list. -/
def deduplicate_records (records : List RawRecord) :
    List RawRecord × Nat × Nat × List (List Char × List Char) :=
  let st := ((records_sorted records).map (fun t => t.2.2)).foldl dedupStep initDedupState
  (st.unique, st.dupDoi, st.dupFp, st.details)

/-- Strict precedence realised by the sort of deduplicate_records: higher
score first and, for equal scores, the larger ingestion index first. -/
def scoredBefore (a b : Nat × Nat × RawRecord) : Prop :=
  b.1 < a.1 ∨ (a.1 = b.1 ∧ b.2.1 < a.2.1)

theorem keyBefore_iff {a b : Nat × Nat × RawRecord} :
    keyBefore a b = true ↔ scoredBefore a b := by
  unfold keyBefore scoredBefore
  exact decide_eq_true_iff

theorem scoredBefore_trans {a b c : Nat × Nat × RawRecord}
    (h1 : scoredBefore a b) (h2 : scoredBefore b c) : scoredBefore a c := by
  unfold scoredBefore at *
  omega

theorem scoredBefore_total {a b : Nat × Nat × RawRecord}
    (hne : a.2.1 ≠ b.2.1) (h : keyBefore a b = false) : scoredBefore b a := by
  have h' : ¬ scoredBefore a b := by
    rw [← keyBefore_iff, h]
    simp
  unfold scoredBefore at *
  omega

theorem mem_insertScored {z x : Nat × Nat × RawRecord}
    {l : List (Nat × Nat × RawRecord)} :
    z ∈ insertScored x l ↔ z = x ∨ z ∈ l := by
  induction l with
  | nil => simp [insertScored]
  | cons y ys ih =>
    by_cases hk : keyBefore x y
    · simp [insertScored, hk]
    · simp [insertScored, hk, ih]
      tauto

theorem insertScored_perm (x : Nat × Nat × RawRecord)
    (l : List (Nat × Nat × RawRecord)) : (insertScored x l).Perm (x :: l) := by
  induction l with
  | nil => exact List.Perm.refl _
  | cons y ys ih =>
    by_cases hk : keyBefore x y
    · simp [insertScored, hk]
    · simp only [insertScored, hk, if_false]
      exact (ih.cons y).trans (List.Perm.swap x y ys)

theorem sortScored_perm (l : List (Nat × Nat × RawRecord)) :
    (sortScored l).Perm l := by
  induction l with
  | nil => exact List.Perm.refl _
  | cons x xs ih =>
    exact (insertScored_perm x (sortScored xs)).trans (ih.cons x)

theorem pairwise_insertScored {x : Nat × Nat × RawRecord}
    {l : List (Nat × Nat × RawRecord)}
    (hl : List.Pairwise scoredBefore l) (hx : ∀ y ∈ l, x.2.1 ≠ y.2.1) :
    List.Pairwise scoredBefore (insertScored x l) := by
  induction l with
  | nil => simp [insertScored]
  | cons y ys ih =>
    rw [List.pairwise_cons] at hl
    by_cases hk : keyBefore x y
    · simp only [insertScored, hk, if_true]
      constructor
      · intro z hz
        rcases List.mem_cons.mp hz with hz | hz
        · rw [hz]
          exact keyBefore_iff.mp hk
        · exact scoredBefore_trans (keyBefore_iff.mp hk) (hl.1 z hz)
      · exact List.pairwise_cons.mpr hl
    · simp only [insertScored, hk, if_false]
      rw [Bool.not_eq_true] at hk
      have hyx : scoredBefore y x :=
        scoredBefore_total (hx y (by simp)) hk
      constructor
      · intro z hz
        rcases mem_insertScored.mp hz with hz | hz
        · rw [hz]
          exact hyx
        · exact hl.1 z hz
      · exact ih hl.2 (fun z hz => hx z (by simp [hz]))

theorem pairwise_sortScored {l : List (Nat × Nat × RawRecord)}
    (h : List.Pairwise (fun a b => a.2.1 ≠ b.2.1) l) :
    List.Pairwise scoredBefore (sortScored l) := by
  induction l with
  | nil => simp [sortScored]
  | cons x xs ih =>
    rw [List.pairwise_cons] at h
    refine pairwise_insertScored (ih h.2) ?_
    intro y hy
    exact h.1 y ((sortScored_perm xs).mem_iff.mp hy)

theorem pairwise_fst_lt_enumFrom {α : Type} (l : List α) :
    ∀ n, List.Pairwise (fun p q : Nat × α => p.1 < q.1) (List.enumFrom n l) := by
  induction l with
  | nil => intro n; simp
  | cons a t ih =>
    intro n
    rw [List.enumFrom_cons]
    constructor
    · rintro ⟨i, x⟩ hq
      have := (List.mem_enumFrom hq).1
      simpa using Nat.lt_of_succ_le this
    · exact ih (n + 1)

theorem records_scored_idx_ne (records : List RawRecord) :
    List.Pairwise (fun a b : Nat × Nat × RawRecord => a.2.1 ≠ b.2.1)
      (records_scored records) := by
  unfold records_scored
  rw [List.pairwise_map]
  have h : List.Pairwise (fun p q : Nat × RawRecord => p.1 < q.1) records.enum :=
    pairwise_fst_lt_enumFrom records 0
  exact h.imp (fun {p q} hpq => Nat.ne_of_lt hpq)

theorem records_scored_fst (records : List RawRecord) :
    ∀ t ∈ records_scored records, t.1 = score t.2.2 := by
  intro t ht
  unfold records_scored at ht
  rw [List.mem_map] at ht
  obtain ⟨p, _, hp⟩ := ht
  rw [← hp]

/-- Record pair for the claim C1 counterexample: equal completeness scores,
differing only in the source tag. -/
def tieRecA : RawRecord := { title := ("abcdefghijkl").data, source_db := ("A").data }

/-- Second record of the claim C1 counterexample pair, ingested after the
first. -/
def tieRecB : RawRecord := { title := ("abcdefghijkl").data, source_db := ("B").data }

/-- Claim C1 counterexample: the source sorts the scored entries by the pair
(score, index) with the reverse flag set, which also reverses the index
tie-break.  On two equally complete records the entry with the larger
ingestion index is placed first, and the later record is the kept copy when
its duplicate is removed, contradicting the claim that the smaller index comes
first and the first-encountered copy is kept. -/
theorem dedup_tie_break_cex :
    (records_sorted [tieRecA, tieRecB]).map (fun t => t.2.1) = [1, 0] ∧
    (deduplicate_records [tieRecA, tieRecB]).1 = [tieRecB] ∧
    score tieRecA = score tieRecB ∧ tieRecA ≠ tieRecB := by decide

/-- Claim C1, amended: in the completeness-sorted order of deduplicate_records
any record with a strictly higher completeness score is placed before any
lower-scored record and, among records with equal score, the record with the
larger original ingestion index comes first — so that among equally complete
records the one encountered last is the kept copy when its duplicates are
removed.  The sorted entries are a permutation of the scored entries and every
entry carries the score of its record. -/
theorem records_sorted_order (records : List RawRecord) :
    List.Pairwise scoredBefore (records_sorted records) ∧
    (records_sorted records).Perm (records_scored records) ∧
    ∀ t ∈ records_sorted records, t.1 = score t.2.2 := by
  refine ⟨pairwise_sortScored (records_scored_idx_ne records),
    sortScored_perm _, ?_⟩
  intro t ht
  exact records_scored_fst records t
    ((sortScored_perm (records_scored records)).mem_iff.mp ht)

/-- Lowered normalized DOI of a record, the key stored in the seen set of
deduplicate_records. -/
def ndoiL (r : RawRecord) : List Char := pyLower (normalize_doi r.doi)

/-- Invariant of the walk state: every survivor with a non-empty key has its
key registered in the seen set, and no two survivors share a non-empty key. -/
def DedupInv (st : DedupState) : Prop :=
  (∀ u ∈ st.unique, ndoiL u ≠ [] → ndoiL u ∈ st.seenDois) ∧
  List.Pairwise (fun a b => ndoiL a = ndoiL b → ndoiL a = []) st.unique

theorem dedupFpCheck_seenDois (st : DedupState) (r : RawRecord) (fp : List Char) :
    (dedupFpCheck st r fp).seenDois = st.seenDois := by
  unfold dedupFpCheck
  split_ifs <;> rfl

theorem dedupFpCheck_inv {st : DedupState} {r : RawRecord} {fp : List Char}
    (h : DedupInv st)
    (hreg : ndoiL r ≠ [] → ndoiL r ∈ st.seenDois)
    (hfresh : ∀ u ∈ st.unique, ndoiL u = ndoiL r → ndoiL u = []) :
    DedupInv (dedupFpCheck st r fp) := by
  unfold dedupFpCheck
  split_ifs with h1 h2
  · exact h
  · constructor
    · intro u hu
      rcases List.mem_append.mp hu with hu | hu
      · exact h.1 u hu
      · rw [List.mem_singleton.mp hu]
        exact hreg
    · rw [List.pairwise_append]
      refine ⟨h.2, by simp, ?_⟩
      intro a ha b hb
      rw [List.mem_singleton.mp hb]
      exact hfresh a ha
  · constructor
    · intro u hu
      rcases List.mem_append.mp hu with hu | hu
      · exact h.1 u hu
      · rw [List.mem_singleton.mp hu]
        exact hreg
    · rw [List.pairwise_append]
      refine ⟨h.2, by simp, ?_⟩
      intro a ha b hb
      rw [List.mem_singleton.mp hb]
      exact hfresh a ha

theorem dedupStep_inv {st : DedupState} (r : RawRecord) (h : DedupInv st) :
    DedupInv (dedupStep st r) := by
  unfold dedupStep
  by_cases hd : normalize_doi r.doi = []
  · simp only [hd, ne_eq, not_true_eq_false, if_false]
    refine dedupFpCheck_inv h ?_ ?_
    · intro hne
      exact absurd (by rw [ndoiL, hd]; rfl) hne
    · intro u hu he
      rw [he, ndoiL, hd]
      rfl
  · simp only [ne_eq, hd, not_false_eq_true, if_true]
    by_cases hm : pyLower (normalize_doi r.doi) ∈ st.seenDois
    · simp only [hm, if_true]
      exact ⟨h.1, h.2⟩
    · simp only [hm, if_false]
      refine dedupFpCheck_inv ?_ ?_ ?_
      · refine ⟨?_, h.2⟩
        intro u hu hne
        exact List.mem_cons_of_mem _ (h.1 u hu hne)
      · intro _
        exact List.mem_cons_self _ _
      · intro u hu he
        by_cases hz : ndoiL u = []
        · exact hz
        · exfalso
          apply hm
          have hmem := h.1 u hu hz
          rw [he] at hmem
          exact hmem

theorem foldl_dedup_inv (l : List RawRecord) :
    ∀ st : DedupState, DedupInv st → DedupInv (l.foldl dedupStep st) := by
  induction l with
  | nil => intro st h; exact h
  | cons x xs ih =>
    intro st h
    rw [List.foldl_cons]
    exact ih _ (dedupStep_inv x h)

theorem initDedupInv : DedupInv initDedupState := by
  constructor
  · intro u hu
    simp [initDedupState] at hu
  · simp [initDedupState]

/-- Pairwise key property of the survivors of deduplicate_records; shared by
the claims about DOI-based duplicate removal. -/
theorem dedup_unique_pairwise_ndoiL (records : List RawRecord) :
    List.Pairwise (fun a b => ndoiL a = ndoiL b → ndoiL a = [])
      (deduplicate_records records).1 :=
  (foldl_dedup_inv _ initDedupState initDedupInv).2

/-- Claim C9: DOI matching in deduplicate_records is case-insensitive even
though normalize_doi preserves letter case — the seen set stores the lowered
normalized DOI, so no two distinct survivors carry non-empty normalized DOIs
that agree up to case; records whose lowered normalized DOIs coincide can
never both survive. -/
theorem dedup_doi_case_insensitive (records : List RawRecord) :
    List.Pairwise
      (fun a b => pyLower (normalize_doi a.doi) = pyLower (normalize_doi b.doi) →
        pyLower (normalize_doi a.doi) = [])
      (deduplicate_records records).1 :=
  dedup_unique_pairwise_ndoiL records

/-- Claim C2: among the survivors of deduplicate_records, no two distinct
records have the same non-empty normalized DOI. -/
theorem dedup_no_shared_doi (records : List RawRecord) :
    List.Pairwise
      (fun a b => normalize_doi a.doi = normalize_doi b.doi →
        normalize_doi a.doi = [])
      (deduplicate_records records).1 := by
  refine (dedup_unique_pairwise_ndoiL records).imp ?_
  intro a b h heq
  have h2 : ndoiL a = ndoiL b := by
    unfold ndoiL
    rw [heq]
  have h3 := h h2
  unfold ndoiL pyLower at h3
  exact List.map_eq_nil_iff.mp h3

theorem dedupFpCheck_size (st : DedupState) (r : RawRecord) (fp : List Char) :
    (dedupFpCheck st r fp).unique.length + (dedupFpCheck st r fp).dupDoi
        + (dedupFpCheck st r fp).dupFp
        = st.unique.length + st.dupDoi + st.dupFp + 1 ∧
      (dedupFpCheck st r fp).details.length + (st.dupDoi + st.dupFp)
        = st.details.length
          + ((dedupFpCheck st r fp).dupDoi + (dedupFpCheck st r fp).dupFp) := by
  unfold dedupFpCheck
  split_ifs <;> simp <;> omega

theorem dedupStep_size (st : DedupState) (r : RawRecord) :
    (dedupStep st r).unique.length + (dedupStep st r).dupDoi + (dedupStep st r).dupFp
        = st.unique.length + st.dupDoi + st.dupFp + 1 ∧
      (dedupStep st r).details.length + (st.dupDoi + st.dupFp)
        = st.details.length + ((dedupStep st r).dupDoi + (dedupStep st r).dupFp) := by
  simp only [dedupStep]
  split_ifs with h1 h2
  · simp
    omega
  · have h := dedupFpCheck_size
      { st with seenDois := pyLower (normalize_doi r.doi) :: st.seenDois } r
      (create_fingerprint r)
    simpa using h
  · exact dedupFpCheck_size st r (create_fingerprint r)

theorem foldl_dedup_size (l : List RawRecord) :
    ∀ st : DedupState,
      (l.foldl dedupStep st).unique.length + (l.foldl dedupStep st).dupDoi
          + (l.foldl dedupStep st).dupFp
        = st.unique.length + st.dupDoi + st.dupFp + l.length ∧
      (l.foldl dedupStep st).details.length + (st.dupDoi + st.dupFp)
        = st.details.length
          + ((l.foldl dedupStep st).dupDoi + (l.foldl dedupStep st).dupFp) := by
  induction l with
  | nil => intro st; simp
  | cons x xs ih =>
    intro st
    rw [List.foldl_cons]
    have h1 := dedupStep_size st x
    have h2 := ih (dedupStep st x)
    constructor
    · rw [h2.1, List.length_cons]
      omega
    · have := h2.2
      omega

theorem records_sorted_map_perm (records : List RawRecord) :
    ((records_sorted records).map (fun t => t.2.2)).Perm records := by
  have h1 : ((records_sorted records).map (fun t => t.2.2)).Perm
      ((records_scored records).map (fun t => t.2.2)) :=
    (sortScored_perm (records_scored records)).map _
  have h2 : (records_scored records).map (fun t => t.2.2) = records := by
    unfold records_scored
    rw [List.map_map]
    exact List.enum_map_snd records
  rw [h2] at h1
  exact h1

/-- Claim C10: deduplicate_records conserves records — survivors plus DOI
duplicates plus fingerprint duplicates equal the input length, and the
provenance list has exactly one entry per removed duplicate. -/
theorem dedup_conserves (records : List RawRecord) :
    (deduplicate_records records).1.length + (deduplicate_records records).2.1
        + (deduplicate_records records).2.2.1 = records.length ∧
      (deduplicate_records records).2.2.2.length
        = (deduplicate_records records).2.1 + (deduplicate_records records).2.2.1 := by
  have h := foldl_dedup_size ((records_sorted records).map (fun t => t.2.2)) initDedupState
  have hlen : ((records_sorted records).map (fun t => t.2.2)).length = records.length :=
    (records_sorted_map_perm records).length_eq
  unfold deduplicate_records
  simp only [initDedupState] at h
  constructor
  · rw [hlen] at h
    have := h.1
    simpa using this
  · have := h.2
    simpa using this

theorem dedupFpCheck_unique_shape (st : DedupState) (r : RawRecord) (fp : List Char) :
    (dedupFpCheck st r fp).unique = st.unique ∨
      (dedupFpCheck st r fp).unique = st.unique ++ [r] := by
  unfold dedupFpCheck
  split_ifs <;> simp

theorem dedupStep_unique_shape (st : DedupState) (r : RawRecord) :
    (dedupStep st r).unique = st.unique ∨ (dedupStep st r).unique = st.unique ++ [r] := by
  simp only [dedupStep]
  split_ifs
  · left
    rfl
  · have h := dedupFpCheck_unique_shape
      { st with seenDois := pyLower (normalize_doi r.doi) :: st.seenDois } r
      (create_fingerprint r)
    simpa using h
  · exact dedupFpCheck_unique_shape st r (create_fingerprint r)

theorem dedupStep_keeps_no_signal {r : RawRecord} (hd : normalize_doi r.doi = [])
    (hl : (create_fingerprint r).length ≤ 10) (st : DedupState) :
    dedupStep st r = { st with unique := st.unique ++ [r] } := by
  have hnlt : ¬ 10 < (create_fingerprint r).length := by omega
  simp [dedupStep, dedupFpCheck, hd, hnlt]

theorem dedupStep_count_no_signal {r : RawRecord} (hd : normalize_doi r.doi = [])
    (hl : (create_fingerprint r).length ≤ 10) (st : DedupState) (x : RawRecord) :
    (dedupStep st x).unique.count r
      = st.unique.count r + (if x = r then 1 else 0) := by
  by_cases hx : x = r
  · subst hx
    rw [dedupStep_keeps_no_signal hd hl]
    simp [List.count_append]
  · rcases dedupStep_unique_shape st x with h | h <;> rw [h] <;>
      simp [List.count_append, List.count_cons, hx]

theorem foldl_count_no_signal {r : RawRecord} (hd : normalize_doi r.doi = [])
    (hl : (create_fingerprint r).length ≤ 10) :
    ∀ (l : List RawRecord) (st : DedupState),
      (l.foldl dedupStep st).unique.count r = st.unique.count r + l.count r := by
  intro l
  induction l with
  | nil => intro st; simp
  | cons x xs ih =>
    intro st
    rw [List.foldl_cons, ih, dedupStep_count_no_signal hd hl st x, List.count_cons]
    simp only [beq_iff_eq]
    split_ifs <;> omega

/-- Claim C7: a record with an empty normalized DOI and a non-matchable
fingerprint (length at most ten) is always kept by deduplicate_records and
never flagged as a duplicate: every copy of it in the input survives, so in
particular two such records are never deduplicated against each other. -/
theorem dedup_keeps_unmatchable (records : List RawRecord) (r : RawRecord)
    (hd : normalize_doi r.doi = [])
    (hl : (create_fingerprint r).length ≤ 10) :
    (deduplicate_records records).1.count r = records.count r := by
  have h := foldl_count_no_signal hd hl
    ((records_sorted records).map (fun t => t.2.2)) initDedupState
  have hc : ((records_sorted records).map (fun t => t.2.2)).count r
      = records.count r := (records_sorted_map_perm records).count_eq r
  simp only [deduplicate_records]
  rw [h, hc]
  simp [initDedupState]

/-- Record with every field empty, used as a concrete input by witnesses. -/
def blankRecord : RawRecord := {}

/-- Witness for claim C7 at a concrete input: a blank record has no DOI and a
non-matchable fingerprint, and two blank copies both survive. -/
theorem dedup_keeps_unmatchable_witness :
    (normalize_doi blankRecord.doi = [] ∧
      (create_fingerprint blankRecord).length ≤ 10) ∧
    (deduplicate_records [blankRecord, blankRecord]).1.count blankRecord
      = ([blankRecord, blankRecord]).count blankRecord :=
  ⟨⟨by decide, by decide⟩,
    dedup_keeps_unmatchable [blankRecord, blankRecord] blankRecord (by decide) (by decide)⟩

/-- Claim C8: deduplicate_records is deterministic — two runs on the same
record sequence return identical survivor lists and identical DOI- and
fingerprint-duplicate counts.  In this embedding the walk is a pure function
of the input sequence, so equal inputs give equal outputs. -/
theorem dedup_deterministic (records1 records2 : List RawRecord)
    (h : records1 = records2) :
    (deduplicate_records records1).1 = (deduplicate_records records2).1 ∧
    (deduplicate_records records1).2.1 = (deduplicate_records records2).2.1 ∧
    (deduplicate_records records1).2.2.1 = (deduplicate_records records2).2.2.1 := by
  subst h
  exact ⟨rfl, rfl, rfl⟩

/-- Witness for claim C8 at a concrete input. -/
theorem dedup_deterministic_witness :
    ([blankRecord] = [blankRecord]) ∧
    (deduplicate_records [blankRecord]).1 = (deduplicate_records [blankRecord]).1 ∧
    (deduplicate_records [blankRecord]).2.1 = (deduplicate_records [blankRecord]).2.1 ∧
    (deduplicate_records [blankRecord]).2.2.1 = (deduplicate_records [blankRecord]).2.2.1 :=
  ⟨rfl, dedup_deterministic [blankRecord] [blankRecord] rfl⟩

theorem dedupStep_no_doi_fresh_fp {r : RawRecord} {st : DedupState}
    (hd : normalize_doi r.doi = []) (hlen : 10 < (create_fingerprint r).length)
    (hnot : create_fingerprint r ∉ st.seenFps) :
    dedupStep st r = { st with seenFps := create_fingerprint r :: st.seenFps,
                               unique := st.unique ++ [r] } := by
  have hne : create_fingerprint r ≠ [] := by
    intro h0
    rw [h0] at hlen
    simp at hlen
  simp [dedupStep, dedupFpCheck, hd, hne, hlen, hnot]

theorem dedupStep_no_doi_dup_fp {r : RawRecord} {st : DedupState}
    (hd : normalize_doi r.doi = []) (hlen : 10 < (create_fingerprint r).length)
    (hmem : create_fingerprint r ∈ st.seenFps) :
    dedupStep st r
      = { st with dupFp := st.dupFp + 1,
                  details := st.details ++ [(("Fingerprint").data, r.source_db)] } := by
  have hne : create_fingerprint r ≠ [] := by
    intro h0
    rw [h0] at hlen
    simp at hlen
  simp [dedupStep, dedupFpCheck, hd, hne, hlen, hmem]

/-- Claim C4: two DOI-free records whose titles agree after text
normalization (the fold of case, diacritics and punctuation), whose
first-author keys agree, and whose year values agree on the first four
characters, receive the same fingerprint from create_fingerprint; when that
fingerprint is matchable (longer than ten characters), deduplicate_records on
the two-record list returns exactly one survivor, no DOI duplicate, and one
fingerprint-method duplicate. -/
theorem fingerprint_merge (r1 r2 : RawRecord)
    (ht : normalize_text r1.title = normalize_text r2.title)
    (ha : authorKey r1.authors = authorKey r2.authors)
    (hy : r1.year.take 4 = r2.year.take 4)
    (hd1 : normalize_doi r1.doi = []) (hd2 : normalize_doi r2.doi = [])
    (hlen : 10 < (create_fingerprint r1).length) :
    create_fingerprint r1 = create_fingerprint r2 ∧
    (deduplicate_records [r1, r2]).1.length = 1 ∧
    (deduplicate_records [r1, r2]).2.1 = 0 ∧
    (deduplicate_records [r1, r2]).2.2.1 = 1 := by
  have hfp : create_fingerprint r1 = create_fingerprint r2 := by
    unfold create_fingerprint
    rw [ht, ha, hy]
  have hlen2 : 10 < (create_fingerprint r2).length := by
    rw [← hfp]
    exact hlen
  have hscored : records_scored [r1, r2] = [(score r1, 0, r1), (score r2, 1, r2)] := rfl
  have hsorted : records_sorted [r1, r2] = [(score r1, 0, r1), (score r2, 1, r2)] ∨
      records_sorted [r1, r2] = [(score r2, 1, r2), (score r1, 0, r1)] := by
    unfold records_sorted
    rw [hscored]
    by_cases hk : keyBefore (score r1, 0, r1) (score r2, 1, r2)
    · left
      simp [sortScored, insertScored, hk]
    · right
      simp [sortScored, insertScored, hk]
  refine ⟨hfp, ?_⟩
  rcases hsorted with hs | hs
  · have hmap : (records_sorted [r1, r2]).map (fun t => t.2.2) = [r1, r2] := by
      rw [hs]
      rfl
    have h1 : List.foldl dedupStep initDedupState [r1, r2]
        = { unique := [r1], seenDois := [], seenFps := [create_fingerprint r1],
            dupDoi := 0, dupFp := 1,
            details := [(("Fingerprint").data, r2.source_db)] } := by
      rw [List.foldl_cons, List.foldl_cons, List.foldl_nil]
      rw [dedupStep_no_doi_fresh_fp hd1 hlen (by simp [initDedupState])]
      rw [dedupStep_no_doi_dup_fp hd2 hlen2
        (by rw [← hfp]; simp [initDedupState])]
      simp [initDedupState]
    simp [deduplicate_records, hmap, h1]
  · have hmap : (records_sorted [r1, r2]).map (fun t => t.2.2) = [r2, r1] := by
      rw [hs]
      rfl
    have h1 : List.foldl dedupStep initDedupState [r2, r1]
        = { unique := [r2], seenDois := [], seenFps := [create_fingerprint r2],
            dupDoi := 0, dupFp := 1,
            details := [(("Fingerprint").data, r1.source_db)] } := by
      rw [List.foldl_cons, List.foldl_cons, List.foldl_nil]
      rw [dedupStep_no_doi_fresh_fp hd2 hlen2 (by simp [initDedupState])]
      rw [dedupStep_no_doi_dup_fp hd1 hlen
        (by rw [hfp]; simp [initDedupState])]
      simp [initDedupState]
    simp [deduplicate_records, hmap, h1]

/-- First record of the claim C4 witness pair: accented, punctuated forms. -/
def fpRec1 : RawRecord :=
  { title := ("Café Study of Cell Metabolism").data,
    authors := ("Smith, J.").data, year := ("2020").data,
    source_db := ("MEDLINE").data }

/-- Second record of the claim C4 witness pair: the same work with casing,
diacritics and punctuation changed. -/
def fpRec2 : RawRecord :=
  { title := ("CAFE STUDY OF CELL METABOLISM!").data,
    authors := ("SMITH, J").data, year := ("2020").data,
    source_db := ("Embase").data }

/-- Witness for claim C4 at a concrete input pair differing only in case,
diacritics and punctuation. -/
theorem fingerprint_merge_witness :
    (normalize_text fpRec1.title = normalize_text fpRec2.title ∧
      authorKey fpRec1.authors = authorKey fpRec2.authors ∧
      fpRec1.year.take 4 = fpRec2.year.take 4 ∧
      normalize_doi fpRec1.doi = [] ∧ normalize_doi fpRec2.doi = [] ∧
      10 < (create_fingerprint fpRec1).length) ∧
    (create_fingerprint fpRec1 = create_fingerprint fpRec2 ∧
      (deduplicate_records [fpRec1, fpRec2]).1.length = 1 ∧
      (deduplicate_records [fpRec1, fpRec2]).2.1 = 0 ∧
      (deduplicate_records [fpRec1, fpRec2]).2.2.1 = 1) :=
  ⟨⟨by decide, by decide, by decide, by decide, by decide, by decide⟩,
    fingerprint_merge fpRec1 fpRec2 (by decide) (by decide) (by decide)
      (by decide) (by decide) (by decide)⟩

/-- Year-token search of the source: the first four-character substring
beginning 19 or 20 and continuing with two ASCII digits, scanning left to
right. -/
def findYear : List Char → Option (List Char)
  | c1 :: c2 :: c3 :: c4 :: rest =>
    if ((c1 = '1' ∧ c2 = '9') ∨ (c1 = '2' ∧ c2 = '0')) ∧ c3.isDigit ∧ c4.isDigit
    then some [c1, c2, c3, c4]
    else findYear (c2 :: c3 :: c4 :: rest)
  | _ => none

/-- Match of optional whitespace followed by the literal marker (ISSN) at the
head of the string, returning the remainder on success.  Because the marker
starts with a non-whitespace character, the greedy whitespace star of the
regex can only succeed after the whole leading run. -/
def issnMarkAt (s : List Char) : Option (List Char) :=
  if (("(ISSN)").data).isPrefixOf (s.dropWhile pyIsSpace) then
    some ((s.dropWhile pyIsSpace).drop 6)
  else none

theorem issnMarkAt_length {s rem : List Char} (h : issnMarkAt s = some rem) :
    rem.length + 6 ≤ s.length := by
  unfold issnMarkAt at h
  by_cases hp : (("(ISSN)").data).isPrefixOf (s.dropWhile pyIsSpace)
  · simp only [hp, if_true, Option.some.injEq] at h
    have h6 : 6 ≤ (s.dropWhile pyIsSpace).length := by
      have hpre : (("(ISSN)").data) <+: (s.dropWhile pyIsSpace) :=
        List.isPrefixOf_iff_prefix.mp hp
      simpa using hpre.length_le
    have hw := length_dropWhile_le pyIsSpace s
    rw [← h, List.length_drop]
    omega
  · simp [hp] at h

/-- Removal of every occurrence of optional whitespace followed by the
literal (ISSN), scanning left to right, as the regex substitution of the
ISSN-cleaning branch does. -/
def removeIssnMarks (s : List Char) : List Char :=
  match s with
  | [] => []
  | c :: rest =>
    match h : issnMarkAt (c :: rest) with
    | some rem => removeIssnMarks rem
    | none => c :: removeIssnMarks rest
termination_by s.length
decreasing_by
  · have := issnMarkAt_length h
    simp only [List.length_cons] at *
    omega
  · simp

/-- Record under construction by the tagged-format parser: one optional field
per canonical key (an option distinguishes a key that is absent from one that
is present with an empty value, as a Python dictionary does), plus the three
accumulation lists for authors, keywords and affiliations. -/
structure RIS where
  title : Option (List Char) := none
  year : Option (List Char) := none
  abstract : Option (List Char) := none
  doi : Option (List Char) := none
  source : Option (List Char) := none
  source_abbrev : Option (List Char) := none
  volume : Option (List Char) := none
  issue : Option (List Char) := none
  page_start : Option (List Char) := none
  page_end : Option (List Char) := none
  issn : Option (List Char) := none
  publisher : Option (List Char) := none
  language : Option (List Char) := none
  url : Option (List Char) := none
  accession : Option (List Char) := none
  id : Option (List Char) := none
  database : Option (List Char) := none
  notes : Option (List Char) := none
  doc_type : Option (List Char) := none
  doc_type_alt : Option (List Char) := none
  pmid : Option (List Char) := none
  article_number : Option (List Char) := none
  authors : Option (List Char) := none
  keywords : Option (List Char) := none
  affiliations : Option (List Char) := none
  au_list : List (List Char) := []
  kw_list : List (List Char) := []
  ad_list : List (List Char) := []
deriving DecidableEq

/-- Truthiness of the record dictionary: true when no key is present. -/
def RIS.isEmptyRec (c : RIS) : Bool :=
  c.title.isNone && c.year.isNone && c.abstract.isNone && c.doi.isNone
    && c.source.isNone && c.source_abbrev.isNone && c.volume.isNone
    && c.issue.isNone && c.page_start.isNone && c.page_end.isNone
    && c.issn.isNone && c.publisher.isNone && c.language.isNone
    && c.url.isNone && c.accession.isNone && c.id.isNone && c.database.isNone
    && c.notes.isNone && c.doc_type.isNone && c.doc_type_alt.isNone
    && c.pmid.isNone && c.article_number.isNone && c.authors.isNone
    && c.keywords.isNone && c.affiliations.isNone && c.au_list.isEmpty
    && c.kw_list.isEmpty && c.ad_list.isEmpty

/-- Canonical field names appearing in the tag table of the tagged-format
parser. -/
inductive RisField where
  | title | authors | year | abstract | doi | source | source_abbrev | volume
  | issue | page_start | page_end | issn | publisher | language | keywords
  | url | accession | id | database | affiliations | notes | doc_type
  | doc_type_alt | pmid | article_number
deriving DecidableEq

/-- The fixed tag table of parse_ris_content.  The three-character entry DOI
of the source is omitted: the two-character line grammar can never produce it,
so it is unreachable. -/
def ris_mapping (tag : List Char) : Option RisField :=
  if tag = ("TI").data ∨ tag = ("T1").data then some .title
  else if tag = ("AU").data ∨ tag = ("A1").data ∨ tag = ("A2").data then some .authors
  else if tag = ("PY").data ∨ tag = ("Y1").data ∨ tag = ("DA").data
      ∨ tag = ("Y2").data then some .year
  else if tag = ("AB").data ∨ tag = ("N2").data then some .abstract
  else if tag = ("DO").data then some .doi
  else if tag = ("JF").data ∨ tag = ("T2").data then some .source
  else if tag = ("JO").data ∨ tag = ("JA").data ∨ tag = ("J2").data then
    some .source_abbrev
  else if tag = ("VL").data then some .volume
  else if tag = ("IS").data then some .issue
  else if tag = ("SP").data then some .page_start
  else if tag = ("EP").data then some .page_end
  else if tag = ("SN").data then some .issn
  else if tag = ("PB").data then some .publisher
  else if tag = ("LA").data then some .language
  else if tag = ("KW").data then some .keywords
  else if tag = ("UR").data ∨ tag = ("L2").data then some .url
  else if tag = ("AN").data then some .accession
  else if tag = ("ID").data then some .id
  else if tag = ("DB").data ∨ tag = ("DP").data then some .database
  else if tag = ("AD").data then some .affiliations
  else if tag = ("N1").data then some .notes
  else if tag = ("TY").data then some .doc_type
  else if tag = ("M3").data then some .doc_type_alt
  else if tag = ("PM").data ∨ tag = ("C2").data then some .pmid
  else if tag = ("C7").data then some .article_number
  else none

/-- The first-wins assignment of the default branch of the tag dispatch: a
field is stored only when its key is not yet present. -/
def setIfUnset (f : RisField) (value : List Char) (cur : RIS) : RIS :=
  match f with
  | .title => if cur.title = none then { cur with title := some value } else cur
  | .authors => if cur.authors = none then { cur with authors := some value } else cur
  | .year => if cur.year = none then { cur with year := some value } else cur
  | .abstract => if cur.abstract = none then { cur with abstract := some value } else cur
  | .doi => if cur.doi = none then { cur with doi := some value } else cur
  | .source => if cur.source = none then { cur with source := some value } else cur
  | .source_abbrev =>
    if cur.source_abbrev = none then { cur with source_abbrev := some value } else cur
  | .volume => if cur.volume = none then { cur with volume := some value } else cur
  | .issue => if cur.issue = none then { cur with issue := some value } else cur
  | .page_start =>
    if cur.page_start = none then { cur with page_start := some value } else cur
  | .page_end => if cur.page_end = none then { cur with page_end := some value } else cur
  | .issn => if cur.issn = none then { cur with issn := some value } else cur
  | .publisher =>
    if cur.publisher = none then { cur with publisher := some value } else cur
  | .language => if cur.language = none then { cur with language := some value } else cur
  | .keywords => if cur.keywords = none then { cur with keywords := some value } else cur
  | .url => if cur.url = none then { cur with url := some value } else cur
  | .accession =>
    if cur.accession = none then { cur with accession := some value } else cur
  | .id => if cur.id = none then { cur with id := some value } else cur
  | .database => if cur.database = none then { cur with database := some value } else cur
  | .affiliations =>
    if cur.affiliations = none then { cur with affiliations := some value } else cur
  | .notes => if cur.notes = none then { cur with notes := some value } else cur
  | .doc_type => if cur.doc_type = none then { cur with doc_type := some value } else cur
  | .doc_type_alt =>
    if cur.doc_type_alt = none then { cur with doc_type_alt := some value } else cur
  | .pmid => if cur.pmid = none then { cur with pmid := some value } else cur
  | .article_number =>
    if cur.article_number = none then { cur with article_number := some value } else cur

/-- Dispatch of one mapped tag inside a record, for tags other than the
record-delimiting TY and ER: author, keyword and affiliation tags accumulate;
year-bearing tags store the extracted year token, overwriting any previous
one; the ISSN tag stores the cleaned value only when the field is absent or
empty; every other mapped tag is assigned first-wins. -/
def processTag (cur : RIS) (tag value : List Char) : RIS :=
  match ris_mapping tag with
  | none => cur
  | some f =>
    if tag = ("AU").data ∨ tag = ("A1").data ∨ tag = ("A2").data then
      { cur with au_list := cur.au_list ++ [value] }
    else if tag = ("KW").data then { cur with kw_list := cur.kw_list ++ [value] }
    else if tag = ("AD").data then { cur with ad_list := cur.ad_list ++ [value] }
    else if tag = ("PY").data ∨ tag = ("Y1").data ∨ tag = ("DA").data
        ∨ tag = ("Y2").data then
      match findYear value with
      | some y => { cur with year := some y }
      | none => cur
    else if tag = ("SN").data then
      if cur.issn = none ∨ cur.issn = some [] then
        let cleaned := pyStrip (removeIssnMarks value)
        { cur with issn := some (if cleaned = [] then []
            else cleaned.takeWhile (fun c => !(pyIsSpace c))) }
      else cur
    else setIfUnset f value cur

/-- Closing of the current record by save_record: the accumulation lists, when
non-empty (key present), are joined and stored under their canonical keys. -/
def finalizeRec (c : RIS) : RIS :=
  { c with
    authors := if c.au_list ≠ [] then some (List.intercalate ((";").data) c.au_list)
               else c.authors,
    keywords := if c.kw_list ≠ [] then some (List.intercalate (("; ").data) c.kw_list)
                else c.keywords,
    affiliations := if c.ad_list ≠ []
                    then some (List.intercalate (("; ").data) c.ad_list)
                    else c.affiliations,
    au_list := [], kw_list := [], ad_list := [] }

/-- State of the tagged-format parser: records emitted so far and the record
under construction. -/
structure RisState where
  records : List RIS
  current : RIS

/-- Model of save_record: a non-empty current record is finalized and
appended. -/
def save_record (st : RisState) : RisState :=
  if st.current.isEmptyRec then st
  else { st with records := st.records ++ [finalizeRec st.current] }

/-- Strip of the trailing carriage-return and newline characters applied to
every line before matching. -/
def rstripCRLF (line : List Char) : List Char :=
  (line.reverse.dropWhile (fun c => c = '\r' || c = '\n')).reverse

/-- Model of the line grammar: an upper-case letter, an upper-case letter or
digit, at least one whitespace character, a hyphen, optional whitespace, then
the value. -/
def parseTagLine (line : List Char) : Option (List Char × List Char) :=
  match line with
  | c1 :: c2 :: rest =>
    if ('A' ≤ c1 ∧ c1 ≤ 'Z') ∧ (('A' ≤ c2 ∧ c2 ≤ 'Z') ∨ ('0' ≤ c2 ∧ c2 ≤ '9')) then
      match rest with
      | [] => none
      | w :: rest2 =>
        if pyIsSpace w then
          match (w :: rest2).dropWhile pyIsSpace with
          | '-' :: rest3 => some ([c1, c2], rest3.dropWhile pyIsSpace)
          | _ => none
        else none
    else none
  | _ => none

/-- One line of the parse loop: unmatched lines are inert; ER closes the
record; TY closes the record and opens a fresh one seeded with the document
type; every other matched tag is dispatched into the current record. -/
def risLineStep (st : RisState) (line : List Char) : RisState :=
  match parseTagLine (rstripCRLF line) with
  | none => st
  | some (tag, rawValue) =>
    let value := pyStrip rawValue
    if tag = ("ER").data then
      { records := (save_record st).records, current := {} }
    else if tag = ("TY").data then
      { records := (save_record st).records, current := { doc_type := some value } }
    else
      { st with current := processTag st.current tag value }

/-- Split on the newline character, as the Python split used by the parser
does (an empty input yields one empty line). -/
def splitLinesAux : List Char → List Char → List (List Char)
  | acc, [] => [acc.reverse]
  | acc, c :: rest =>
    if c = '\n' then acc.reverse :: splitLinesAux [] rest
    else splitLinesAux (c :: acc) rest

/-- All lines of the content. -/
def splitLines (s : List Char) : List (List Char) := splitLinesAux [] s

/-- Model of parse_ris_content: fold the line step over all lines, then emit
any open record. -/
def parse_ris_content (content : List Char) : List RIS :=
  (save_record ((splitLines content).foldl risLineStep ⟨[], {}⟩)).records

/-- Accessors of the single-valued canonical fields governed by the first-wins
default branch of the tag dispatch (year and ISSN are handled by their own
branches and are excluded). -/
def genericGetters : List (RIS → Option (List Char)) :=
  [fun c => c.title, fun c => c.doi, fun c => c.abstract, fun c => c.source,
   fun c => c.source_abbrev, fun c => c.volume, fun c => c.issue,
   fun c => c.page_start, fun c => c.page_end, fun c => c.publisher,
   fun c => c.language, fun c => c.url, fun c => c.pmid, fun c => c.doc_type]

/-- Tagged content for the claim C6 counterexample: one record whose year is
given by a PY tag and then by a later DA tag. -/
def yearCexContent : List Char :=
  ("TY  - JOUR\nPY  - 2020\nDA  - 2021\nER  - ").data

/-- Claim C6 counterexample: the year branch of parse_ris_content stores every
extracted year token unconditionally, so a later year-bearing tag overwrites
an earlier one.  On a record carrying PY 2020 followed by DA 2021 the emitted
year is 2021, not the value of the first year-mapping tag occurrence. -/
theorem ris_year_not_first_wins_cex :
    (parse_ris_content yearCexContent).map (fun r => r.year)
        = [some (("2021").data)] ∧
      (some (("2021").data) : Option (List Char)) ≠ some (("2020").data) := by
  decide

set_option maxHeartbeats 1000000 in
/-- Claim C6, amended: in the tag dispatch of parse_ris_content, a
single-valued canonical field other than year and ISSN keeps the value of its
first mapping tag occurrence — a later tag mapping to a field that is already
present never changes it; the year field is instead overwritten by every
year-bearing tag whose value contains a 19xx or 20xx token, so the last such
occurrence wins; and the ISSN field keeps the first non-empty stored value. -/
theorem ris_first_wins_amended :
    (∀ g ∈ genericGetters, ∀ (cur : RIS) (tag value v : List Char),
      g cur = some v → g (processTag cur tag value) = some v) ∧
    (∀ (cur : RIS) (tag value y : List Char),
      (tag = ("PY").data ∨ tag = ("Y1").data ∨ tag = ("DA").data
        ∨ tag = ("Y2").data) →
      findYear value = some y → (processTag cur tag value).year = some y) ∧
    (∀ (cur : RIS) (value v : List Char), v ≠ [] → cur.issn = some v →
      (processTag cur (("SN").data) value).issn = some v) := by
  refine ⟨?_, ?_, ?_⟩
  · intro g hg
    simp only [genericGetters, List.mem_cons, List.not_mem_nil, or_false] at hg
    rcases hg with rfl | rfl | rfl | rfl | rfl | rfl | rfl | rfl | rfl | rfl
      | rfl | rfl | rfl | rfl <;>
      · intro cur tag value v hv
        unfold processTag
        cases hm : ris_mapping tag with
        | none => simpa using hv
        | some f =>
          simp only []
          split_ifs <;>
            (try split) <;>
            first
              | (simp [hv]; done)
              | (cases f <;> simp only [setIfUnset] <;> split_ifs <;> simp_all)
  · intro cur tag value y htag hy
    unfold processTag
    have hm : ris_mapping tag = some .year := by
      rcases htag with rfl | rfl | rfl | rfl <;> rfl
    rw [hm]
    have hne : ¬ (tag = ("AU").data ∨ tag = ("A1").data ∨ tag = ("A2").data) := by
      rcases htag with rfl | rfl | rfl | rfl <;> decide
    have hkw : tag ≠ ("KW").data := by
      rcases htag with rfl | rfl | rfl | rfl <;> decide
    have had : tag ≠ ("AD").data := by
      rcases htag with rfl | rfl | rfl | rfl <;> decide
    simp only [hne, hkw, had, htag, if_false, if_true]
    rw [hy]
  · intro cur value v hv hcur
    have hred : processTag cur (("SN").data) value
        = if cur.issn = none ∨ cur.issn = some [] then
            { cur with issn := some (if pyStrip (removeIssnMarks value) = [] then []
                else (pyStrip (removeIssnMarks value)).takeWhile
                  (fun c => !(pyIsSpace c))) }
          else cur := by
      simp +decide [processTag, ris_mapping]
    rw [hred, hcur]
    have hno : ¬ ((some v : Option (List Char)) = none
        ∨ (some v : Option (List Char)) = some []) := by
      simp [hv]
    rw [if_neg hno]
    exact hcur

/-- Record with a title and an ISSN already stored, used by the claim C6
witness. -/
def risCur : RIS :=
  { title := some (("T").data), issn := some (("1234-5678").data) }

/-- Witness for the amended claim C6 at concrete inputs: a duplicate abstract
tag leaves the stored title unchanged, a later DA tag overwrites the year, and
an SN tag leaves a non-empty stored ISSN unchanged. -/
theorem ris_first_wins_witness :
    (processTag risCur (("AB").data) (("duplicate").data)).title
        = some (("T").data) ∧
    (processTag risCur (("DA").data) (("May 2021").data)).year
        = some (("2021").data) ∧
    (processTag risCur (("SN").data) (("0000-0000").data)).issn
        = some (("1234-5678").data) :=
  ⟨ris_first_wins_amended.1 (fun c => c.title)
      (by unfold genericGetters; exact List.mem_cons_self _ _) risCur _ _ _ rfl,
    ris_first_wins_amended.2.1 risCur _ _ _ (by decide) (by decide),
    ris_first_wins_amended.2.2 risCur _ _ (by decide) rfl⟩

/-- Portion of a string after the last occurrence of the given separator;
models taking the last element of the corresponding Python split. -/
def afterLast (sep : Char) (s : List Char) : List Char :=
  (s.reverse.takeWhile (fun c => c != sep)).reverse

/-- The fixed declared output column order of convert_to_scopus_format, in the
order of the source. -/
def column_order : List (List Char) :=
  [("Authors").data, ("Author full names").data, ("Author(s) ID").data,
   ("Title").data, ("Year").data, ("Source title").data, ("Volume").data,
   ("Issue").data, ("Art. No.").data, ("Page start").data, ("Page end").data,
   ("Cited by").data, ("DOI").data, ("Link").data, ("Affiliations").data,
   ("Authors with affiliations").data, ("Abstract").data,
   ("Author Keywords").data, ("Index Keywords").data,
   ("Molecular Sequence Numbers").data, ("Chemicals/CAS").data,
   ("Tradenames").data, ("Manufacturers").data, ("Funding Details").data,
   ("Funding Texts").data, ("References").data,
   ("Correspondence Address").data, ("Editors").data, ("Publisher").data,
   ("Sponsors").data, ("Conference name").data, ("Conference date").data,
   ("Conference location").data, ("Conference code").data, ("ISSN").data,
   ("ISBN").data, ("CODEN").data, ("PubMed ID").data,
   ("Language of Original Document").data, ("Abbreviated Source Title").data,
   ("Document Type").data, ("Publication Stage").data, ("Open Access").data,
   ("Source").data, ("EID").data]

/-- One output row of convert_to_scopus_format: the cells of the record in
the dictionary insertion order of the source, as (column, value) pairs.  The
index is the position of the record in the surviving sequence, used for the
synthetic EID. -/
def scopusRow (i : Nat) (rec : RawRecord) : List (List Char × List Char) :=
  let doi := normalize_doi rec.doi
  let language := if rec.language = [] then ("English").data else rec.language
  let ps_pe : List Char × List Char :=
    if rec.pages ≠ [] ∧ rec.page_start = [] then
      if '-' ∈ rec.pages then
        (pyStrip (beforeFirst '-' rec.pages), pyStrip (afterLast '-' rec.pages))
      else (rec.pages, rec.page_end)
    else (rec.page_start, rec.page_end)
  let year_int := if rec.year ≠ [] then (findYear rec.year).getD [] else []
  [(("Authors").data, rec.authors), (("Author full names").data, rec.authors),
   (("Author(s) ID").data, []), (("Title").data, rec.title),
   (("Year").data, year_int), (("Source title").data, rec.source),
   (("Volume").data, rec.volume), (("Issue").data, rec.issue),
   (("Art. No.").data, []), (("Page start").data, ps_pe.1),
   (("Page end").data, ps_pe.2), (("Cited by").data, ("0").data),
   (("DOI").data, doi), (("Link").data, rec.url),
   (("Affiliations").data, rec.affiliations),
   (("Authors with affiliations").data, []),
   (("Abstract").data, rec.abstract), (("Author Keywords").data, rec.keywords),
   (("Index Keywords").data, []), (("Molecular Sequence Numbers").data, []),
   (("Chemicals/CAS").data, []), (("Tradenames").data, []),
   (("Manufacturers").data, []), (("Funding Details").data, []),
   (("Funding Texts").data, []), (("References").data, []),
   (("Correspondence Address").data, []), (("Editors").data, []),
   (("Publisher").data, rec.publisher), (("Sponsors").data, []),
   (("Conference name").data, []), (("Conference date").data, []),
   (("Conference location").data, []), (("Conference code").data, []),
   (("ISSN").data, rec.issn), (("ISBN").data, []), (("CODEN").data, []),
   (("PubMed ID").data, rec.pmid),
   (("Language of Original Document").data, language),
   (("Abbreviated Source Title").data, rec.source_abbrev),
   (("Document Type").data, ("Article").data),
   (("Publication Stage").data, ("Final").data), (("Open Access").data, []),
   (("Source").data, ("Scopus").data),
   (("EID").data, ("2-s2.0-").data ++ Nat.toDigits 10 (85000000000 + i))]

/-- Accumulation of one key into the column set, keeping first-seen order. -/
def insertColKey (acc : List (List Char)) (p : List Char × List Char) : List (List Char) :=
  if p.1 ∈ acc then acc else acc ++ [p.1]

/-- Column set of a data frame built from a list of row dictionaries: the
union of the keys of all rows, in first-seen order. -/
def dfColumns (rows : List (List (List Char × List Char))) : List (List Char) :=
  rows.foldl (fun acc row => row.foldl insertColKey acc) []

/-- Cell of a row under a column label (empty when absent). -/
def lookupCol (c : List Char) (row : List (List Char × List Char)) : List Char :=
  ((row.find? (fun p => decide (p.1 = c))).map (fun p => p.2)).getD []

/-- Model of convert_to_scopus_format: one row per record in sequence, then
the data-frame column selection on the declared column order.  Selecting a
missing column raises a KeyError in the source — in particular the frame built
from an empty record list has no columns at all — modelled by the error
result. -/
def convert_to_scopus_format (records : List RawRecord) :
    Except Unit (List (List (List Char × List Char))) :=
  let rows := records.enum.map (fun p => scopusRow p.1 p.2)
  if column_order.all (fun c => decide (c ∈ dfColumns rows)) then
    .ok (rows.map (fun row => column_order.map (fun c => (c, lookupCol c row))))
  else .error ()

theorem mem_foldl_insertColKey_of_mem (row : List (List Char × List Char)) :
    ∀ (acc : List (List Char)) (c : List Char), c ∈ acc →
      c ∈ row.foldl insertColKey acc := by
  induction row with
  | nil => intro acc c h; exact h
  | cons p rest ih =>
    intro acc c h
    rw [List.foldl_cons]
    apply ih
    unfold insertColKey
    split_ifs with hm
    · exact h
    · exact List.mem_append.mpr (Or.inl h)

theorem fst_mem_foldl_insertColKey (row : List (List Char × List Char)) :
    ∀ (acc : List (List Char)) (p : List Char × List Char), p ∈ row →
      p.1 ∈ row.foldl insertColKey acc := by
  induction row with
  | nil => intro acc p h; cases h
  | cons q rest ih =>
    intro acc p h
    rw [List.foldl_cons]
    rcases List.mem_cons.mp h with rfl | h2
    · apply mem_foldl_insertColKey_of_mem
      unfold insertColKey
      split_ifs with hm
      · exact hm
      · exact List.mem_append.mpr (Or.inr (by simp))
    · exact ih _ p h2

theorem mem_foldl_rows_of_mem (rows : List (List (List Char × List Char))) :
    ∀ (acc : List (List Char)) (c : List Char), c ∈ acc →
      c ∈ rows.foldl (fun acc row => row.foldl insertColKey acc) acc := by
  induction rows with
  | nil => intro acc c h; exact h
  | cons row rest ih =>
    intro acc c h
    rw [List.foldl_cons]
    exact ih _ c (mem_foldl_insertColKey_of_mem row acc c h)

theorem mem_dfColumns_head {row : List (List Char × List Char)}
    {rows : List (List (List Char × List Char))} {c : List Char}
    (h : ∃ p ∈ row, p.1 = c) : c ∈ dfColumns (row :: rows) := by
  unfold dfColumns
  rw [List.foldl_cons]
  apply mem_foldl_rows_of_mem
  obtain ⟨p, hp, rfl⟩ := h
  exact fst_mem_foldl_insertColKey row [] p hp

theorem scopusRow_cols (i : Nat) (rec : RawRecord) :
    (scopusRow i rec).map Prod.fst = column_order := rfl

set_option maxRecDepth 10000 in
/-- Claim C5 counterexample: the fixed output schema of
convert_to_scopus_format has 45 columns, not 44 — converting a single record
yields a table whose one row has 45 cells. -/
theorem scopus_44_columns_cex :
    (convert_to_scopus_format [blankRecord]).map (fun t => t.map List.length)
        = .ok [45] ∧ (45 : Nat) ≠ 44 :=
  ⟨rfl, by decide⟩

/-- Claim C5, amended: the declared schema has 45 columns, not 44.  For every
non-empty list of records the conversion returns a table with one row per
record, every row carrying exactly the 45 declared columns in the fixed
declared order, regardless of which fields were populated; on the empty list
the final column selection of the source raises a KeyError (the empty frame
has no columns), modelled by the error result. -/
theorem scopus_fixed_columns (records : List RawRecord) :
    (records = [] → convert_to_scopus_format records = .error ()) ∧
    (records ≠ [] → ∃ t, convert_to_scopus_format records = .ok t ∧
      t.length = records.length ∧
      ∀ row ∈ t, row.map Prod.fst = column_order ∧ row.length = 45) := by
  constructor
  · intro h
    subst h
    rfl
  · intro hne
    obtain ⟨r, rs, rfl⟩ := List.exists_cons_of_ne_nil hne
    have hshape : (r :: rs).enum.map (fun p => scopusRow p.1 p.2)
        = scopusRow 0 r :: (List.enumFrom 1 rs).map (fun p => scopusRow p.1 p.2) := by
      rw [List.enum_cons]
      rfl
    have hall : column_order.all
        (fun c => decide (c ∈ dfColumns ((r :: rs).enum.map
          (fun p => scopusRow p.1 p.2)))) = true := by
      rw [List.all_eq_true]
      intro c hc
      apply decide_eq_true
      rw [hshape]
      apply mem_dfColumns_head
      rw [← scopusRow_cols 0 r] at hc
      rw [List.mem_map] at hc
      obtain ⟨p, hp, rfl⟩ := hc
      exact ⟨p, hp, rfl⟩
    refine ⟨((r :: rs).enum.map (fun p => scopusRow p.1 p.2)).map
      (fun row => column_order.map (fun c => (c, lookupCol c row))), ?_, ?_, ?_⟩
    · simp only [convert_to_scopus_format]
      rw [if_pos hall]
    · simp [List.enum_length]
    · intro row hrow
      rw [List.mem_map] at hrow
      obtain ⟨row0, _, rfl⟩ := hrow
      constructor
      · rfl
      · rw [List.length_map]
        rfl

/-- Witness for the amended claim C5 at a concrete one-record input. -/
theorem scopus_fixed_columns_witness :
    ([blankRecord] ≠ ([] : List RawRecord)) ∧
    (∃ t, convert_to_scopus_format [blankRecord] = .ok t ∧
      t.length = ([blankRecord] : List RawRecord).length ∧
      ∀ row ∈ t, row.map Prod.fst = column_order ∧ row.length = 45) :=
  ⟨by decide, (scopus_fixed_columns [blankRecord]).2 (by decide)⟩

end RefMan
